import Mathlib

/-!
# Verification of the wgpu-polyfill struct-marshalling core

Shallow embedding of the layout engine (`src/structs/layout.ts`), the struct
encoder/decoder (`src/structs/encoder.ts`) and the callback bridge
(`src/async/callback-registry.ts`, `src/async/polling.ts`), together with
proofs of the testable properties stated in the specification.

Machine integers are modelled as `Nat`/`Int` with explicit wrap-around where
the JavaScript `DataView` operations truncate; buffers are byte functions
`Nat → Nat`.
-/

namespace WgpuPolyfill

/-- The thirteen primitive kinds of `PrimitiveType` in `src/structs/layout.ts`. -/
inductive PrimType where
  | u8 | i8 | u16 | i16 | u32 | i32 | u64 | i64 | f32 | f64 | ptr | usize | bool
deriving DecidableEq, Repr

mutual

/-- `FieldType` from `src/structs/layout.ts`: a primitive, a nested struct
layout, or a fixed-size array of primitives. -/
inductive FieldType where
  | prim (p : PrimType)
  | strukt (s : StructLayout)
  | arr (p : PrimType) (count : Nat)

/-- `StructLayout` from `src/structs/layout.ts`. -/
inductive StructLayout where
  | mk (name : String) (fields : List FieldLayout) (size : Nat) (alignment : Nat)

/-- `FieldLayout` from `src/structs/layout.ts`. -/
inductive FieldLayout where
  | mk (name : String) (type : FieldType) (offset : Nat) (size : Nat) (alignment : Nat)

end

def StructLayout.name : StructLayout → String
  | .mk n _ _ _ => n

def StructLayout.fields : StructLayout → List FieldLayout
  | .mk _ fs _ _ => fs

def StructLayout.size : StructLayout → Nat
  | .mk _ _ s _ => s

def StructLayout.alignment : StructLayout → Nat
  | .mk _ _ _ a => a

def FieldLayout.name : FieldLayout → String
  | .mk n _ _ _ _ => n

def FieldLayout.type : FieldLayout → FieldType
  | .mk _ t _ _ _ => t

def FieldLayout.offset : FieldLayout → Nat
  | .mk _ _ o _ _ => o

def FieldLayout.size : FieldLayout → Nat
  | .mk _ _ _ s _ => s

def FieldLayout.alignment : FieldLayout → Nat
  | .mk _ _ _ _ a => a

/-- `FieldDef` from `src/structs/layout.ts`: a (name, type) pair. -/
structure FieldDef where
  name : String
  type : FieldType

/-- The `TYPE_INFO` table of `src/structs/layout.ts`: (size, alignment) per
primitive kind.  `bool` is 4-byte because WGPUBool is `uint32_t`. -/
def TYPE_INFO : PrimType → Nat × Nat
  | .u8 => (1, 1)
  | .i8 => (1, 1)
  | .u16 => (2, 2)
  | .i16 => (2, 2)
  | .u32 => (4, 4)
  | .i32 => (4, 4)
  | .u64 => (8, 8)
  | .i64 => (8, 8)
  | .f32 => (4, 4)
  | .f64 => (8, 8)
  | .ptr => (8, 8)
  | .usize => (8, 8)
  | .bool => (4, 4)

/-- `getTypeInfo` of `src/structs/layout.ts`: (size, alignment) of a field
type; a nested struct contributes its own size/alignment as a unit, a fixed
array contributes (elementSize * count, elementAlignment). -/
def getTypeInfo : FieldType → Nat × Nat
  | .prim p => TYPE_INFO p
  | .strukt s => (s.size, s.alignment)
  | .arr p count => ((TYPE_INFO p).1 * count, (TYPE_INFO p).2)

/-- `align` of `src/structs/layout.ts`: round `offset` up to a multiple of
`alignment` (`remainder = offset % alignment` inlined). -/
def align (offset alignment : Nat) : Nat :=
  if offset % alignment = 0 then offset else offset + (alignment - offset % alignment)

/-- The loop body of `defineStruct`: walks the fields in declaration order
carrying the running offset and running max alignment, and returns the
computed field layouts together with the final offset and max alignment. -/
def layoutFields : Nat → Nat → List FieldDef → List FieldLayout × Nat × Nat
  | offset, maxAlignment, [] => ([], offset, maxAlignment)
  | offset, maxAlignment, f :: rest =>
    let info := getTypeInfo f.type
    let off := align offset info.2
    let (fs, finalOff, finalMax) :=
      layoutFields (off + info.1) (max maxAlignment info.2) rest
    (.mk f.name f.type off info.1 info.2 :: fs, finalOff, finalMax)

/-- `defineStruct` of `src/structs/layout.ts`: computes a struct layout with
automatic alignment; the final size is rounded up to the max alignment. -/
def defineStruct (name : String) (fields : List FieldDef) : StructLayout :=
  let (layoutFs, finalOffset, maxAlignment) := layoutFields 0 1 fields
  .mk name layoutFs (align finalOffset maxAlignment) maxAlignment

/-- `getFieldOffset` of `src/structs/layout.ts`: the offset of the (first)
field with the given name, or an error naming the field and the struct. -/
def getFieldOffset (layout : StructLayout) (fieldName : String) : Except String Nat :=
  match layout.fields.find? (fun f => f.name = fieldName) with
  | some f => .ok f.offset
  | none => .error ("Field '" ++ fieldName ++ "' not found in struct '" ++ layout.name ++ "'")

/-! ## Byte buffers

A buffer is modelled as a byte function `Nat → Nat`; every write stores a
value `< 256` and every read reduces the stored byte mod 256, matching the
`DataView` byte memory of `src/structs/encoder.ts`. -/

/-- A raw byte buffer: byte index to byte value. -/
def Buf := Nat → Nat

/-- The zero-initialized buffer allocated by `new ArrayBuffer(size)`. -/
def zeroBuf : Buf := fun _ => 0

/-- Store one byte. -/
def setByte (buf : Buf) (i v : Nat) : Buf :=
  fun j => if j = i then v else buf j

/-- Write `w` bytes of `v` little-endian at `off` (the byte-level effect of the
little-endian `DataView.setUintN`/`setBigUint64` calls in the encoder). -/
def writeLE : Nat → Buf → Nat → Nat → Buf
  | 0, buf, _, _ => buf
  | w + 1, buf, off, v => writeLE w (setByte buf off (v % 256)) (off + 1) (v / 256)

/-- Read `w` bytes little-endian at `off` (the byte-level effect of the
little-endian `DataView.getUintN`/`getBigUint64` calls in the decoder). -/
def readLE : Nat → Buf → Nat → Nat
  | 0, _, _ => 0
  | w + 1, buf, off => buf off % 256 + 256 * readLE w buf (off + 1)

/-! ## JavaScript values

The encoder receives arbitrary JavaScript values.  The model restricts
numbers to integral doubles (`num`), and represents a float-typed field's
payload by its IEEE-754 bit pattern (`f32bits`/`f64bits`), since the
`DataView` float setters/getters round-trip exactly the bit pattern. -/

/-- Model of the JavaScript values reaching `StructEncoder.writeField`. -/
inductive Value where
  | num (n : Int)
  | bigv (n : Int)
  | bool (b : Bool)
  | str (s : String)
  | nullv
  | f32bits (bits : Nat)
  | f64bits (bits : Nat)
  | arr (vs : List Value)
  | obj (kvs : List (String × Value))

/-- Decimal-integer fragment of JavaScript string-to-number conversion:
empty string is 0, a non-empty digit string (optionally signed) is its value,
anything else is NaN (`none`).  Hex/exponent/fraction literals are outside
the model; the source never passes them to a numeric field. -/
def parseDecInt (s : String) : Option Int :=
  let digitsVal : List Char → Option Nat := fun cs =>
    cs.foldl (fun acc c =>
      match acc with
      | none => none
      | some a => if c.isDigit then some (a * 10 + (c.toNat - 48)) else none) (some 0)
  match s.data with
  | [] => some 0
  | '-' :: rest => if rest = [] then none else (digitsVal rest).map (fun n => -(n : Int))
  | l => (digitsVal l).map (fun n => (n : Int))

/-- Model of JavaScript `ToNumber` on the value shapes above (`none` = NaN).
`bigv` is absent: `DataView` number setters throw on a BigInt argument before
any conversion, which `writePrim` models separately. -/
def toNumberModel : Value → Option Int
  | .num n => some n
  | .bool b => some (if b then 1 else 0)
  | .nullv => some 0
  | .str s => parseDecInt s
  | _ => none

/-- Model of JavaScript `BigInt(value)`: numbers (integral in this model) and
bigints convert, booleans convert to 0/1, strings convert iff they parse as an
integer (SyntaxError otherwise), everything else is a TypeError. -/
def bigintOfModel : Value → Except String Int
  | .num n => .ok n
  | .bigv n => .ok n
  | .bool b => .ok (if b then 1 else 0)
  | .str s =>
    match parseDecInt s with
    | some n => .ok n
    | none => .error "SyntaxError: cannot convert string to BigInt"
  | _ => .error "TypeError: cannot convert value to BigInt"

/-- The `w`-byte two's-complement bit pattern of an integer (what the
little-endian `DataView` setters store for both signed and unsigned writes). -/
def natPattern (w : Nat) (n : Int) : Nat :=
  (n % ((2 : Int) ^ (8 * w))).toNat

/-- Byte width of a primitive kind (the `getTypeSize` table duplicated in
`src/structs/encoder.ts`, identical to the sizes in `TYPE_INFO`). -/
def getTypeSize (p : PrimType) : Nat := (TYPE_INFO p).1

/-- `StructEncoder.writePrimitive` of `src/structs/encoder.ts`.
Number-typed setters (`u8..i32`, `bool`, `f32`, `f64`) coerce their argument
via `ToNumber` (NaN stores 0) and throw only on a BigInt argument;
`u64`/`i64`/`usize` convert via `BigInt(value)` which throws on a
non-convertible value; `ptr` converts via `BigInt(value ?? 0)`.
For float fields the IEEE bit image of a general coerced number is not
modelled (0 is stored); theorems only evaluate float fields on
`f32bits`/`f64bits` payloads, whose pattern is stored exactly. -/
def writePrim (buf : Buf) (off : Nat) (p : PrimType) (v : Value) : Except String Buf :=
  match p with
  | .u8 | .i8 | .u16 | .i16 | .u32 | .i32 | .bool =>
    match v with
    | .bigv _ => .error "TypeError: Cannot convert a BigInt to a number"
    | _ =>
      .ok (writeLE (getTypeSize p) buf off
        (match toNumberModel v with
         | none => 0
         | some n => natPattern (getTypeSize p) n))
  | .f32 =>
    match v with
    | .bigv _ => .error "TypeError: Cannot convert a BigInt to a number"
    | .f32bits b => .ok (writeLE 4 buf off (b % 2 ^ 32))
    | _ => .ok (writeLE 4 buf off 0)
  | .f64 =>
    match v with
    | .bigv _ => .error "TypeError: Cannot convert a BigInt to a number"
    | .f64bits b => .ok (writeLE 8 buf off (b % 2 ^ 64))
    | _ => .ok (writeLE 8 buf off 0)
  | .u64 | .usize | .i64 =>
    (bigintOfModel v).map (fun n => writeLE 8 buf off (natPattern 8 n))
  | .ptr =>
    (match v with
     | .nullv => Except.ok 0
     | _ => bigintOfModel v).map (fun n => writeLE 8 buf off (natPattern 8 n))

/-- Two's-complement reinterpretation of a `w`-byte unsigned read (the signed
`DataView` getters). -/
def signedOfPattern (w u : Nat) : Int :=
  if u < 2 ^ (8 * w - 1) then (u : Int) else (u : Int) - 2 ^ (8 * w)

/-- The `StructDecoder` read function of `src/structs/encoder.ts` matching a
primitive kind: `readU8..readI32` return numbers, `readU64`/`readI64` return
bigints, `readPtr` returns `Number(getBigUint64(..))` (exact below `2^53`, the
range well-typed pointer values are confined to), `readBool` compares the
32-bit word to 0, and the float reads are represented by their bit pattern. -/
def readPrim (buf : Buf) (off : Nat) : PrimType → Value
  | .u8 => .num (readLE 1 buf off)
  | .i8 => .num (signedOfPattern 1 (readLE 1 buf off))
  | .u16 => .num (readLE 2 buf off)
  | .i16 => .num (signedOfPattern 2 (readLE 2 buf off))
  | .u32 => .num (readLE 4 buf off)
  | .i32 => .num (signedOfPattern 4 (readLE 4 buf off))
  | .u64 => .bigv (readLE 8 buf off)
  | .usize => .bigv (readLE 8 buf off)
  | .i64 => .bigv (signedOfPattern 8 (readLE 8 buf off))
  | .f32 => .f32bits (readLE 4 buf off)
  | .f64 => .f64bits (readLE 8 buf off)
  | .ptr => .num (readLE 8 buf off)
  | .bool => .bool (readLE 4 buf off ≠ 0)

/-- JavaScript property lookup on a value map, `none` modelling `undefined`.
Maps are modelled as key/value lists read at the first occurrence of a key. -/
def jsGet (kvs : List (String × Value)) (k : String) : Option Value :=
  (kvs.find? (fun kv => kv.1 = k)).map (fun kv => kv.2)

/-- The fixed-size-array loop of `StructEncoder.writeField`: writes elements
at `offset + i * elemSize` for `i < min(count, arr.length)`, realized here by
stepping the offset by `elemSize`. -/
def writeArrayElems (p : PrimType) (elemSize : Nat) :
    Buf → Nat → Nat → List Value → Except String Buf
  | buf, _, 0, _ => .ok buf
  | buf, _, _ + 1, [] => .ok buf
  | buf, off, count + 1, v :: vs => do
    let buf' ← writePrim buf off p v
    writeArrayElems p elemSize buf' (off + elemSize) count vs

mutual

/-- `StructEncoder.writeField` of `src/structs/encoder.ts`: primitives are
written directly; a nested struct recurses field-by-field with offsets added,
skipping fields absent from the value (`undefined`); a fixed array writes up
to `min(count, length)` elements.  A `null` value under a struct type throws
(property access on `null`); a value with no `length`/properties writes
nothing.  A string under an array type indexes into its characters, as
JavaScript string indexing does. -/
def writeField (buf : Buf) (off : Nat) : FieldType → Value → Except String Buf
  | .prim p, v => writePrim buf off p v
  | .strukt (.mk _ fs _ _), v =>
    match v with
    | .obj kvs => writeStructFields buf off fs kvs
    | .nullv => .error "TypeError: Cannot read properties of null"
    | _ => .ok buf
  | .arr p count, v =>
    match v with
    | .arr vs => writeArrayElems p (getTypeSize p) buf off (min count vs.length) vs
    | .str s =>
      writeArrayElems p (getTypeSize p) buf off (min count s.length)
        (s.data.map (fun c => Value.str (String.mk [c])))
    | .nullv => .error "TypeError: Cannot read properties of null"
    | _ => .ok buf

/-- The field loop shared by `StructEncoder.encode` (at base offset 0) and the
nested-struct branch of `writeField`: for each field present in the value map,
write it at `off + field.offset`. -/
def writeStructFields (buf : Buf) (off : Nat) :
    List FieldLayout → List (String × Value) → Except String Buf
  | [], _ => .ok buf
  | .mk nm ty foff _ _ :: rest, kvs =>
    match jsGet kvs nm with
    | none => writeStructFields buf off rest kvs
    | some v => do
      let buf' ← writeField buf (off + foff) ty v
      writeStructFields buf' off rest kvs

end

/-- `StructEncoder.encode` of `src/structs/encoder.ts`: allocate a
zero-initialized buffer of `layout.size` bytes and write every field present
in the value map at its offset. -/
def StructEncoder.encode (layout : StructLayout) (values : List (String × Value)) :
    Except String Buf :=
  writeStructFields zeroBuf 0 layout.fields values

mutual

/-- Decoding one field with the `StructDecoder` read function matching the
field's kind at the field's offset; a nested struct decodes to the map of its
fields, a fixed array to the list of its `count` elements at stride
`elemSize`. -/
def decodeField (buf : Buf) (off : Nat) : FieldType → Value
  | .prim p => readPrim buf off p
  | .strukt (.mk _ fs _ _) => .obj (decodeFieldList buf off fs)
  | .arr p count =>
    .arr ((List.range count).map (fun i => readPrim buf (off + i * getTypeSize p) p))

/-- Decoding a field list at a base offset, in declaration order. -/
def decodeFieldList (buf : Buf) (off : Nat) :
    List FieldLayout → List (String × Value)
  | [] => []
  | .mk nm ty foff _ _ :: rest =>
    (nm, decodeField buf (off + foff) ty) :: decodeFieldList buf off rest

end

/-! ## Well-formedness and well-typedness

`wfType` captures the shape every nested layout produced by `defineStruct`
has: positive alignment, distinct field names, and fields occupying
non-overlapping regions in declaration order inside the struct's size.
`valueFits` captures a value map of the field's declared type whose entries
cover the fields exactly, with each primitive payload in range. -/

mutual

/-- Well-formed field type: nested struct layouts have positive alignment,
distinct field names, and sequentially disjoint in-bounds fields. -/
def wfType : FieldType → Bool
  | .prim _ => true
  | .arr _ _ => true
  | .strukt (.mk _ fs sz al) =>
    decide (0 < al) && decide ((fs.map FieldLayout.name).Nodup) && wfFieldSeq 0 sz fs

/-- Fields in declaration order, each starting at or after the running
position and ending within `size`, with well-formed types. -/
def wfFieldSeq (cur size : Nat) : List FieldLayout → Bool
  | [] => true
  | .mk _ ty foff _ _ :: rest =>
    decide (cur ≤ foff) && decide (foff + (getTypeInfo ty).1 ≤ size) && wfType ty &&
      wfFieldSeq (foff + (getTypeInfo ty).1) size rest

end

/-- In-range payload of the matching JavaScript shape for one primitive kind:
numbers for the ≤ 32-bit integers and `ptr` (exact below `2^53`), bigints for
the 64-bit integers, booleans for `bool`, bit patterns for the floats. -/
def primFits : PrimType → Value → Bool
  | .u8, .num n => decide (0 ≤ n ∧ n < 256)
  | .i8, .num n => decide (-128 ≤ n ∧ n < 128)
  | .u16, .num n => decide (0 ≤ n ∧ n < 65536)
  | .i16, .num n => decide (-32768 ≤ n ∧ n < 32768)
  | .u32, .num n => decide (0 ≤ n ∧ n < 4294967296)
  | .i32, .num n => decide (-2147483648 ≤ n ∧ n < 2147483648)
  | .u64, .bigv n => decide (0 ≤ n ∧ n < 2 ^ 64)
  | .usize, .bigv n => decide (0 ≤ n ∧ n < 2 ^ 64)
  | .i64, .bigv n => decide (-(2 ^ 63) ≤ n ∧ n < 2 ^ 63)
  | .ptr, .num n => decide (0 ≤ n ∧ n < 2 ^ 53)
  | .f32, .f32bits b => decide (b < 2 ^ 32)
  | .f64, .f64bits b => decide (b < 2 ^ 64)
  | .bool, .bool _ => true
  | _, _ => false

mutual

/-- A value of the field type's matching shape: an in-range primitive, an
array of exactly `count` in-range elements, or a map listing exactly the
nested fields in declaration order. -/
def valueFits : FieldType → Value → Bool
  | .prim p, v => primFits p v
  | .arr p count, v =>
    match v with
    | .arr vs => decide (vs.length = count) && vs.all (primFits p)
    | _ => false
  | .strukt (.mk _ fs _ _), v =>
    match v with
    | .obj kvs => fieldsFit fs kvs
    | _ => false

/-- A value map listing exactly these fields, in order, with fitting values. -/
def fieldsFit : List FieldLayout → List (String × Value) → Bool
  | [], [] => true
  | .mk nm ty _ _ _ :: rest, (k, v) :: kvs => decide (k = nm) && valueFits ty v && fieldsFit rest kvs
  | _, _ => false

end

/-! ## Callback bridge (`src/async/callback-registry.ts`) -/

/-- `WGPURequestAdapterStatus.Success` from `src/ffi/types.ts`. -/
def WGPURequestAdapterStatus_Success : Nat := 0x00000001

/-- The observable state of `CallbackRegistry`: the keys of the `pending` map
and the `nextId` counter.  Map keys are unique, so `pending` lists distinct
tokens. -/
structure RegState where
  pending : List Nat
  nextId : Nat
deriving DecidableEq, Repr

/-- The effect of a trampoline invocation on its pending entry's future. -/
inductive AdapterOutcome where
  | resolve (adapter : Nat)
  | reject (message : String)
deriving DecidableEq, Repr

/-- `memory.readString` of `src/ffi/index.ts`: empty for a null pointer or
zero length, otherwise the decoded text of `length` bytes at `pointer`
(modelled for ASCII bytes, which is all the claims exercise). -/
def readStringMem (mem : Nat → Nat) (pointer length : Nat) : String :=
  if pointer = 0 ∨ length = 0 then ""
  else String.mk ((List.range length).map (fun i => Char.ofNat (mem (pointer + i) % 256)))

/-- The trampoline body built by `CallbackRegistry.createAdapterCallback`:
look the token up in the pending map, ignore it if absent, otherwise remove it
and resolve (success status) or reject with the decoded diagnostic message
(falling back to "Unknown error" when none was supplied). -/
def fireAdapterCallback (st : RegState) (mem : Nat → Nat)
    (status adapter messageData messageLength userdata1 : Nat) :
    RegState × Option AdapterOutcome :=
  let pendingId := userdata1
  if pendingId ∈ st.pending then
    let st' : RegState := { st with pending := st.pending.filter (fun t => t ≠ pendingId) }
    if status = WGPURequestAdapterStatus_Success then
      (st', some (.resolve adapter))
    else
      let message :=
        if messageLength > 0 then readStringMem mem messageData messageLength
        else "Unknown error"
      (st', some (.reject ("Failed to request adapter (status " ++ toString status ++ "): " ++ message)))
  else
    (st, none)

/-- `CallbackRegistry.cleanup`: reject every still-pending operation with the
shutdown error and clear the map; returns the rejection events in map order. -/
def CallbackRegistry.cleanup (st : RegState) : RegState × List (Nat × String) :=
  ({ st with pending := [] },
   st.pending.map (fun t => (t, "Callback registry cleaned up")))

/-- `CallbackRegistry.pendingCount`. -/
def CallbackRegistry.pendingCount (st : RegState) : Nat := st.pending.length

/-! ## Polling loop (`src/async/polling.ts`) -/

/-- The default `maxIterations` of `pollUntilComplete`. -/
def defaultMaxIterations : Nat := 10000

/-- The `while (!resolved && iterations < maxIterations)` loop of
`pollUntilComplete`, counting iterations; `resolved i` is whether the tracked
promise has settled by the time of the check with `iterations = i`.  The
event pump and the timed yield inside the body are foreign effects with no
bearing on the iteration count. -/
def pollLoop (resolved : Nat → Bool) : Nat → Nat → Nat
  | iterations, 0 => iterations
  | iterations, fuel + 1 =>
    if resolved iterations then iterations else pollLoop resolved (iterations + 1) fuel

/-- The number of iterations `pollUntilComplete` runs: the loop starts at 0
and can run at most `maxIterations` times. -/
def pollIterations (resolved : Nat → Bool) (maxIterations : Nat) : Nat :=
  pollLoop resolved 0 maxIterations

/-- `pollUntilComplete` of `src/async/polling.ts`: run the polling loop; if
the promise never settled, throw the timeout error; otherwise propagate the
settled outcome (`outcome` is what the tracked promise delivered). -/
def pollUntilComplete {α : Type} (resolved : Nat → Bool) (outcome : Except String α)
    (maxIterations : Nat) : Except String α :=
  let its := pollIterations resolved maxIterations
  if resolved its then outcome
  else .error ("Polling timed out after " ++ toString its ++ " iterations")

/-! ## Encoder allocation tracking (`StructEncoder` state) -/

/-- The `allocations` list of a `StructEncoder` instance: every byte region it
has allocated, in order. -/
structure EncState where
  allocations : List (List Nat)
deriving DecidableEq, Repr

/-- Little-endian byte image of `v` in `w` bytes (the memory image of
`BigUint64Array`/`Uint32Array` elements). -/
def leBytes (w v : Nat) : List Nat :=
  (List.range w).map (fun i => v / 256 ^ i % 256)

/-- `StructEncoder.encodeString`: the empty (falsy) string yields a null data
pointer and length 0 without allocating; otherwise the UTF-8 bytes are
recorded in `allocations` and their address and byte length returned.
Addresses are abstract, given by the ambient `ptrOf`. -/
def StructEncoder.encodeString (ptrOf : List Nat → Nat) (st : EncState) (s : String) :
    EncState × Nat × Nat :=
  if s = "" then (st, 0, 0)
  else
    let encoded := (String.toUTF8 s).toList.map (fun b => b.toNat)
    ({ allocations := st.allocations ++ [encoded] }, ptrOf encoded, encoded.length)

/-- `StructEncoder.ptrArray`: an empty pointer list yields the null pointer;
otherwise the 64-bit little-endian packing is recorded and its address
returned. -/
def StructEncoder.ptrArray (ptrOf : List Nat → Nat) (st : EncState) (pointers : List Nat) :
    EncState × Nat :=
  if pointers = [] then (st, 0)
  else
    let bytes := pointers.foldr (fun p acc => leBytes 8 p ++ acc) []
    ({ allocations := st.allocations ++ [bytes] }, ptrOf bytes)

/-- `StructEncoder.u32Array`: an empty value list yields the null pointer;
otherwise the 32-bit little-endian packing is recorded and its address
returned. -/
def StructEncoder.u32Array (ptrOf : List Nat → Nat) (st : EncState) (values : List Nat) :
    EncState × Nat :=
  if values = [] then (st, 0)
  else
    let bytes := values.foldr (fun v acc => leBytes 4 v ++ acc) []
    ({ allocations := st.allocations ++ [bytes] }, ptrOf bytes)

/-! ## Spec-side layout algorithm (for the refinement claim about
`defineStruct`)

These definitions follow the wording of the specification (§3 data model and
§4.1 layout algorithm), independently of the source, and are compared with
`defineStruct` in the corresponding theorem. -/

/-- Per the spec's data model: primitives carry fixed (size, alignment) pairs
per the host ABI — 8-byte/8-byte-aligned pointer and size, 4-byte bool, and
the standard C widths for the fixed integers and floats. -/
def specTypeInfo : PrimType → Nat × Nat
  | .u8 => (1, 1)
  | .i8 => (1, 1)
  | .u16 => (2, 2)
  | .i16 => (2, 2)
  | .u32 => (4, 4)
  | .i32 => (4, 4)
  | .u64 => (8, 8)
  | .i64 => (8, 8)
  | .f32 => (4, 4)
  | .f64 => (8, 8)
  | .ptr => (8, 8)
  | .usize => (8, 8)
  | .bool => (4, 4)

/-- Per the spec: a nested struct field contributes its own (size, alignment)
as a unit; a fixed array field contributes (elementSize × count,
elementAlignment). -/
def specFieldInfo : FieldType → Nat × Nat
  | .prim p => specTypeInfo p
  | .strukt s => (s.size, s.alignment)
  | .arr p count => ((specTypeInfo p).1 * count, (specTypeInfo p).2)

/-- Per the spec: `align(offset, a) = offset if offset % a == 0 else
offset + (a - offset % a)`. -/
def specAlign (offset a : Nat) : Nat :=
  if offset % a = 0 then offset else offset + (a - offset % a)

/-- Per the spec's §4.1 algorithm: walk fields in declaration order,
maintaining a running offset (init 0) and a running max-alignment (init 1);
for each field, round the running offset up to the field's alignment, record
that as the field's offset, add the field's size to the running offset, and
update the max-alignment; after all fields, round the final offset up to the
max-alignment to obtain the total size. -/
def specComputeLayoutGo : List FieldDef → Nat → Nat → List FieldLayout →
    List FieldLayout × Nat × Nat
  | [], offset, maxAlignment, acc => (acc, offset, maxAlignment)
  | f :: rest, offset, maxAlignment, acc =>
    let info := specFieldInfo f.type
    let fieldOffset := specAlign offset info.2
    specComputeLayoutGo rest (fieldOffset + info.1) (max maxAlignment info.2)
      (acc ++ [.mk f.name f.type fieldOffset info.1 info.2])

/-- The spec's `computeLayout` contract assembled from the walk above. -/
def specComputeLayout (name : String) (fields : List FieldDef) : StructLayout :=
  let (layoutFs, finalOffset, maxAlignment) := specComputeLayoutGo fields 0 1 []
  .mk name layoutFs (specAlign finalOffset maxAlignment) maxAlignment

/-! ## Alignment arithmetic -/

theorem le_align (offset a : Nat) : offset ≤ align offset a := by
  unfold align
  split <;> omega

theorem align_mod (offset : Nat) {a : Nat} (ha : 0 < a) : align offset a % a = 0 := by
  unfold align
  split
  · assumption
  · rename_i h
    have hlt : offset % a < a := Nat.mod_lt _ ha
    have h1 : offset + (a - offset % a) = a * (offset / a) + a := by
      have := Nat.div_add_mod offset a
      omega
    rw [h1, show a * (offset / a) + a = a * (offset / a + 1) by ring, Nat.mul_mod_right]

theorem align_lt (offset : Nat) {a : Nat} (ha : 0 < a) : align offset a < offset + a := by
  unfold align
  have hlt : offset % a < a := Nat.mod_lt _ ha
  split <;> omega

/-! ## Little-endian byte reads and writes -/

theorem setByte_same (buf : Buf) (i v : Nat) : setByte buf i v i = v := by
  simp [setByte]

theorem setByte_other (buf : Buf) {i j : Nat} (v : Nat) (h : j ≠ i) :
    setByte buf i v j = buf j := by
  simp [setByte, h]

theorem writeLE_frame (w : Nat) (buf : Buf) (off v j : Nat)
    (h : j < off ∨ off + w ≤ j) : writeLE w buf off v j = buf j := by
  induction w generalizing buf off v with
  | zero => rfl
  | succ w ih =>
    show writeLE w (setByte buf off (v % 256)) (off + 1) (v / 256) j = buf j
    rw [ih (setByte buf off (v % 256)) (off + 1) (v / 256) (by omega),
      setByte_other _ _ (by omega)]

theorem pow256 (w : Nat) : (256 : Nat) ^ w = 2 ^ (8 * w) := by
  rw [show (256 : Nat) = 2 ^ 8 from rfl, ← pow_mul]

theorem readLE_writeLE (w : Nat) (buf : Buf) (off v : Nat) :
    readLE w (writeLE w buf off v) off = v % 256 ^ w := by
  induction w generalizing buf off v with
  | zero => simp [readLE, writeLE, Nat.mod_one]
  | succ w ih =>
    show (writeLE w (setByte buf off (v % 256)) (off + 1) (v / 256)) off % 256 +
        256 * readLE w (writeLE w (setByte buf off (v % 256)) (off + 1) (v / 256)) (off + 1) =
        v % 256 ^ (w + 1)
    rw [writeLE_frame _ _ _ _ _ (by omega), setByte_same, ih]
    rw [show (256 : Nat) ^ (w + 1) = 256 * 256 ^ w by ring, Nat.mod_mul]
    omega

theorem readLE_congr (w : Nat) (buf buf' : Buf) (off : Nat)
    (h : ∀ j, off ≤ j → j < off + w → buf j = buf' j) :
    readLE w buf off = readLE w buf' off := by
  induction w generalizing off with
  | zero => rfl
  | succ w ih =>
    show buf off % 256 + 256 * readLE w buf (off + 1) =
        buf' off % 256 + 256 * readLE w buf' (off + 1)
    rw [h off (by omega) (by omega), ih (off + 1) (fun j h1 h2 => h j (by omega) (by omega))]

theorem readLE_lt (w : Nat) (buf : Buf) (off : Nat) : readLE w buf off < 256 ^ w := by
  induction w generalizing off with
  | zero => simp [readLE]
  | succ w ih =>
    show buf off % 256 + 256 * readLE w buf (off + 1) < 256 ^ (w + 1)
    have h1 : buf off % 256 < 256 := Nat.mod_lt _ (by omega)
    have h2 := ih (off + 1)
    have : 256 * readLE w buf (off + 1) + 256 ≤ 256 * 256 ^ w := by omega
    calc buf off % 256 + 256 * readLE w buf (off + 1) <
        256 * readLE w buf (off + 1) + 256 := by omega
      _ ≤ 256 * 256 ^ w := this
      _ = 256 ^ (w + 1) := by ring

/-! ## Two's-complement patterns -/

theorem intPowCast (k : Nat) : ((2 ^ k : Nat) : Int) = 2 ^ k := by push_cast; ring

theorem natPattern_lt (w : Nat) (n : Int) : natPattern w n < 256 ^ w := by
  unfold natPattern
  have h2 : (0 : Int) ≤ n % (2 : Int) ^ (8 * w) := Int.emod_nonneg _ (by positivity)
  rw [pow256, Int.toNat_lt h2, intPowCast]
  exact Int.emod_lt_of_pos _ (by positivity)

theorem natPattern_of_nonneg {w : Nat} {n : Int} (h0 : 0 ≤ n) (h1 : n < 2 ^ (8 * w)) :
    (natPattern w n : Int) = n := by
  unfold natPattern
  rw [Int.emod_eq_of_lt h0 h1]
  exact Int.toNat_of_nonneg h0

theorem signedOfPattern_natPattern {w : Nat} (hw : 0 < w) {n : Int}
    (h1 : -(2 ^ (8 * w - 1)) ≤ n) (h2 : n < 2 ^ (8 * w - 1)) :
    signedOfPattern w (natPattern w n) = n := by
  have hsplit : (2 : Int) ^ (8 * w) = 2 ^ (8 * w - 1) * 2 := by
    rw [← pow_succ]
    congr 1
    omega
  unfold signedOfPattern natPattern
  rcases le_or_lt 0 n with hn | hn
  · have hmod : n % (2 : Int) ^ (8 * w) = n := Int.emod_eq_of_lt hn (by omega)
    rw [hmod]
    have hlt : n.toNat < 2 ^ (8 * w - 1) := by
      rw [Int.toNat_lt hn, intPowCast]
      exact h2
    rw [if_pos hlt, Int.toNat_of_nonneg hn]
  · have hmod : n % (2 : Int) ^ (8 * w) = n + 2 ^ (8 * w) := by
      have heq : n % (2 : Int) ^ (8 * w) = (n + 2 ^ (8 * w) * 1) % (2 : Int) ^ (8 * w) := by
        rw [Int.add_mul_emod_self_left]
      rw [heq, mul_one, Int.emod_eq_of_lt (by omega) (by omega)]
    rw [hmod]
    have hge : ¬((n + 2 ^ (8 * w)).toNat < 2 ^ (8 * w - 1)) := by
      rw [not_lt, Int.le_toNat (by omega), intPowCast]
      omega
    rw [if_neg hge, Int.toNat_of_nonneg (by omega)]
    omega

/-! ## Primitive write/read round trip -/

theorem readLE_writeLE_natPattern (w : Nat) (buf : Buf) (off : Nat) (n : Int) :
    readLE w (writeLE w buf off (natPattern w n)) off = natPattern w n := by
  rw [readLE_writeLE, Nat.mod_eq_of_lt (natPattern_lt _ _)]

theorem writePrim_roundtrip {p : PrimType} {v : Value} (hfit : primFits p v = true)
    (buf : Buf) (off : Nat) :
    ∃ buf', writePrim buf off p v = .ok buf' ∧ readPrim buf' off p = v ∧
      (∀ j, j < off ∨ off + getTypeSize p ≤ j → buf' j = buf j) := by
  cases p <;> cases v <;> simp only [primFits] at hfit <;>
    first
    | exact absurd hfit (by decide)
    | skip
  case u8.num n =>
    have h := of_decide_eq_true hfit
    refine ⟨_, rfl, ?_, fun j hj => writeLE_frame _ _ _ _ _ hj⟩
    show Value.num (readLE 1 (writeLE 1 buf off (natPattern 1 n)) off : Nat) = Value.num n
    rw [readLE_writeLE_natPattern, natPattern_of_nonneg h.1
      (by rw [show (2 : Int) ^ (8 * 1) = 256 by norm_num]; exact h.2)]
  case i8.num n =>
    have h := of_decide_eq_true hfit
    refine ⟨_, rfl, ?_, fun j hj => writeLE_frame _ _ _ _ _ hj⟩
    show Value.num (signedOfPattern 1 (readLE 1 (writeLE 1 buf off (natPattern 1 n)) off)) =
      Value.num n
    rw [readLE_writeLE_natPattern, signedOfPattern_natPattern (by omega)
      (by rw [show (2 : Int) ^ (8 * 1 - 1) = 128 by norm_num]; omega)
      (by rw [show (2 : Int) ^ (8 * 1 - 1) = 128 by norm_num]; omega)]
  case u16.num n =>
    have h := of_decide_eq_true hfit
    refine ⟨_, rfl, ?_, fun j hj => writeLE_frame _ _ _ _ _ hj⟩
    show Value.num (readLE 2 (writeLE 2 buf off (natPattern 2 n)) off : Nat) = Value.num n
    rw [readLE_writeLE_natPattern, natPattern_of_nonneg h.1
      (by rw [show (2 : Int) ^ (8 * 2) = 65536 by norm_num]; exact h.2)]
  case i16.num n =>
    have h := of_decide_eq_true hfit
    refine ⟨_, rfl, ?_, fun j hj => writeLE_frame _ _ _ _ _ hj⟩
    show Value.num (signedOfPattern 2 (readLE 2 (writeLE 2 buf off (natPattern 2 n)) off)) =
      Value.num n
    rw [readLE_writeLE_natPattern, signedOfPattern_natPattern (by omega)
      (by rw [show (2 : Int) ^ (8 * 2 - 1) = 32768 by norm_num]; omega)
      (by rw [show (2 : Int) ^ (8 * 2 - 1) = 32768 by norm_num]; omega)]
  case u32.num n =>
    have h := of_decide_eq_true hfit
    refine ⟨_, rfl, ?_, fun j hj => writeLE_frame _ _ _ _ _ hj⟩
    show Value.num (readLE 4 (writeLE 4 buf off (natPattern 4 n)) off : Nat) = Value.num n
    rw [readLE_writeLE_natPattern, natPattern_of_nonneg h.1
      (by rw [show (2 : Int) ^ (8 * 4) = 4294967296 by norm_num]; exact h.2)]
  case i32.num n =>
    have h := of_decide_eq_true hfit
    refine ⟨_, rfl, ?_, fun j hj => writeLE_frame _ _ _ _ _ hj⟩
    show Value.num (signedOfPattern 4 (readLE 4 (writeLE 4 buf off (natPattern 4 n)) off)) =
      Value.num n
    rw [readLE_writeLE_natPattern, signedOfPattern_natPattern (by omega)
      (by rw [show (2 : Int) ^ (8 * 4 - 1) = 2147483648 by norm_num]; omega)
      (by rw [show (2 : Int) ^ (8 * 4 - 1) = 2147483648 by norm_num]; omega)]
  case u64.bigv n =>
    have h := of_decide_eq_true hfit
    refine ⟨_, rfl, ?_, fun j hj => writeLE_frame _ _ _ _ _ hj⟩
    show Value.bigv (readLE 8 (writeLE 8 buf off (natPattern 8 n)) off : Nat) = Value.bigv n
    rw [readLE_writeLE_natPattern, natPattern_of_nonneg h.1 h.2]
  case usize.bigv n =>
    have h := of_decide_eq_true hfit
    refine ⟨_, rfl, ?_, fun j hj => writeLE_frame _ _ _ _ _ hj⟩
    show Value.bigv (readLE 8 (writeLE 8 buf off (natPattern 8 n)) off : Nat) = Value.bigv n
    rw [readLE_writeLE_natPattern, natPattern_of_nonneg h.1 h.2]
  case i64.bigv n =>
    have h := of_decide_eq_true hfit
    refine ⟨_, rfl, ?_, fun j hj => writeLE_frame _ _ _ _ _ hj⟩
    show Value.bigv (signedOfPattern 8 (readLE 8 (writeLE 8 buf off (natPattern 8 n)) off)) =
      Value.bigv n
    rw [readLE_writeLE_natPattern, signedOfPattern_natPattern (by omega)
      (by rw [show (8 : Nat) * 8 - 1 = 63 from rfl]; omega)
      (by rw [show (8 : Nat) * 8 - 1 = 63 from rfl]; omega)]
  case ptr.num n =>
    have h := of_decide_eq_true hfit
    refine ⟨_, rfl, ?_, fun j hj => writeLE_frame _ _ _ _ _ hj⟩
    show Value.num (readLE 8 (writeLE 8 buf off (natPattern 8 n)) off : Nat) = Value.num n
    rw [readLE_writeLE_natPattern, natPattern_of_nonneg h.1
      (lt_of_lt_of_le h.2 (by norm_num))]
  case f32.f32bits b =>
    have h := of_decide_eq_true hfit
    refine ⟨_, rfl, ?_, fun j hj => writeLE_frame _ _ _ _ _ hj⟩
    show Value.f32bits (readLE 4 (writeLE 4 buf off (b % 2 ^ 32)) off) = Value.f32bits b
    rw [readLE_writeLE, Nat.mod_eq_of_lt h,
      Nat.mod_eq_of_lt (lt_of_lt_of_le h (by norm_num))]
  case f64.f64bits b =>
    have h := of_decide_eq_true hfit
    refine ⟨_, rfl, ?_, fun j hj => writeLE_frame _ _ _ _ _ hj⟩
    show Value.f64bits (readLE 8 (writeLE 8 buf off (b % 2 ^ 64)) off) = Value.f64bits b
    rw [readLE_writeLE, Nat.mod_eq_of_lt h,
      Nat.mod_eq_of_lt (lt_of_lt_of_le h (by norm_num))]
  case bool.bool b =>
    refine ⟨_, rfl, ?_, fun j hj => writeLE_frame _ _ _ _ _ hj⟩
    show Value.bool (readLE 4 (writeLE 4 buf off
      (natPattern 4 (if b then 1 else 0))) off ≠ 0) = Value.bool b
    rw [readLE_writeLE_natPattern]
    cases b <;> simp [natPattern]

theorem readPrim_congr {buf buf' : Buf} {off : Nat} (p : PrimType)
    (h : ∀ j, off ≤ j → j < off + getTypeSize p → buf j = buf' j) :
    readPrim buf off p = readPrim buf' off p := by
  cases p <;> simp only [readPrim] <;>
    first
    | rw [readLE_congr 1 buf buf' off h]
    | rw [readLE_congr 2 buf buf' off h]
    | rw [readLE_congr 4 buf buf' off h]
    | rw [readLE_congr 8 buf buf' off h]

theorem writeArrayElems_roundtrip {p : PrimType} (vs : List Value)
    (hfit : vs.all (primFits p) = true) (buf : Buf) (off : Nat) :
    ∃ buf', writeArrayElems p (getTypeSize p) buf off vs.length vs = .ok buf' ∧
      (∀ i, (hi : i < vs.length) →
        readPrim buf' (off + i * getTypeSize p) p = vs.get ⟨i, hi⟩) ∧
      (∀ j, j < off ∨ off + vs.length * getTypeSize p ≤ j → buf' j = buf j) := by
  induction vs generalizing buf off with
  | nil => exact ⟨buf, rfl, fun i hi => absurd hi (by simp), fun j hj => rfl⟩
  | cons v vs ih =>
    have hv : primFits p v = true := by
      simp only [List.all_cons, Bool.and_eq_true] at hfit
      exact hfit.1
    have hvs : vs.all (primFits p) = true := by
      simp only [List.all_cons, Bool.and_eq_true] at hfit
      exact hfit.2
    obtain ⟨buf1, hw1, hr1, hf1⟩ := writePrim_roundtrip hv buf off
    obtain ⟨buf2, hw2, hr2, hf2⟩ := ih hvs buf1 (off + getTypeSize p)
    refine ⟨buf2, ?_, ?_, ?_⟩
    · show (do
        let b ← writePrim buf off p v
        writeArrayElems p (getTypeSize p) b (off + getTypeSize p) vs.length vs) = .ok buf2
      rw [hw1]
      exact hw2
    · intro i hi
      match i with
      | 0 =>
        show readPrim buf2 (off + 0 * getTypeSize p) p = v
        have hagree : ∀ j, off + 0 * getTypeSize p ≤ j →
            j < off + 0 * getTypeSize p + getTypeSize p → buf2 j = buf1 j := by
          intro j h1 h2
          exact hf2 j (Or.inl (by omega))
        rw [readPrim_congr p hagree]
        have : off + 0 * getTypeSize p = off := by omega
        rw [this]
        exact hr1
      | i + 1 =>
        have h2 : i < vs.length := by
          simpa using hi
        have haddr : off + (i + 1) * getTypeSize p =
            (off + getTypeSize p) + i * getTypeSize p := by ring
        rw [haddr]
        exact hr2 i h2
    · intro j hj
      have hj2 : j < off + getTypeSize p ∨
          off + getTypeSize p + vs.length * getTypeSize p ≤ j := by
        rcases hj with h | h
        · exact Or.inl (by omega)
        · right
          have : (v :: vs).length * getTypeSize p =
              getTypeSize p + vs.length * getTypeSize p := by
            simp [List.length_cons]
            ring
          omega
      rcases hj with h | h
      · rw [hf2 j (Or.inl (by omega)), hf1 j (Or.inl h)]
      · rw [hf2 j hj2]
        refine hf1 j (Or.inr ?_)
        have hlen : (1 : Nat) ≤ (v :: vs).length := by simp
        have : getTypeSize p ≤ (v :: vs).length * getTypeSize p :=
          le_mul_of_one_le_left (by omega) hlen
        omega

/-! ## Lookup lemmas -/

theorem jsGet_cons_self (nm : String) (v : Value) (kvs : List (String × Value)) :
    jsGet ((nm, v) :: kvs) nm = some v := by
  simp [jsGet, List.find?]

theorem jsGet_cons_ne (nm k : String) (v : Value) (kvs : List (String × Value))
    (h : k ≠ nm) : jsGet ((nm, v) :: kvs) k = jsGet kvs k := by
  simp [jsGet, List.find?, Ne.symm h]

/-! ## Decoding depends only on the field's byte region -/

mutual

theorem decodeField_congr : ∀ (t : FieldType) (buf buf' : Buf) (off : Nat),
    wfType t = true →
    (∀ j, off ≤ j → j < off + (getTypeInfo t).1 → buf j = buf' j) →
    decodeField buf off t = decodeField buf' off t
  | .prim p, buf, buf', off, _, hagree => by
    show readPrim buf off p = readPrim buf' off p
    exact readPrim_congr p hagree
  | .strukt (.mk n fs sz al), buf, buf', off, hwf, hagree => by
    show Value.obj (decodeFieldList buf off fs) = Value.obj (decodeFieldList buf' off fs)
    have h1 : wfFieldSeq 0 sz fs = true := by
      simp only [wfType, Bool.and_eq_true] at hwf
      exact hwf.2
    have h2 : ∀ j, off + 0 ≤ j → j < off + sz → buf j = buf' j := by
      intro j ha hb
      exact hagree j (by omega) hb
    rw [decodeFieldList_congr fs buf buf' off 0 sz h1 h2]
  | .arr p count, buf, buf', off, _, hagree => by
    show Value.arr _ = Value.arr _
    refine congrArg Value.arr (List.map_congr_left ?_)
    intro i hi
    rw [List.mem_range] at hi
    refine readPrim_congr p ?_
    intro j h1 h2
    refine hagree j (by omega) ?_
    show j < off + getTypeSize p * count
    have h3 : (i + 1) * getTypeSize p ≤ count * getTypeSize p :=
      Nat.mul_le_mul_right _ (by omega)
    have h4 : count * getTypeSize p = getTypeSize p * count := Nat.mul_comm _ _
    have h5 : (i + 1) * getTypeSize p = i * getTypeSize p + getTypeSize p := by ring
    omega

theorem decodeFieldList_congr : ∀ (fs : List FieldLayout) (buf buf' : Buf)
    (off cur size : Nat), wfFieldSeq cur size fs = true →
    (∀ j, off + cur ≤ j → j < off + size → buf j = buf' j) →
    decodeFieldList buf off fs = decodeFieldList buf' off fs
  | [], _, _, _, _, _, _, _ => rfl
  | .mk nm ty foff fsz fal :: rest, buf, buf', off, cur, size, hwf, hagree => by
    simp only [wfFieldSeq, Bool.and_eq_true, decide_eq_true_eq] at hwf
    obtain ⟨⟨⟨hcur, hend⟩, hty⟩, hrest⟩ := hwf
    show (nm, decodeField buf (off + foff) ty) :: decodeFieldList buf off rest =
      (nm, decodeField buf' (off + foff) ty) :: decodeFieldList buf' off rest
    rw [decodeField_congr ty buf buf' (off + foff) hty
        (fun j h1 h2 => hagree j (by omega) (by omega)),
      decodeFieldList_congr rest buf buf' off (foff + (getTypeInfo ty).1) size hrest
        (fun j h1 h2 => hagree j (by omega) h2)]

end

/-! ## The write loop only consults the value map through the field names -/

theorem writeStructFields_congr_values (fs : List FieldLayout) :
    ∀ (kvs kvs' : List (String × Value)) (buf : Buf) (off : Nat),
    (∀ f ∈ fs, jsGet kvs f.name = jsGet kvs' f.name) →
    writeStructFields buf off fs kvs = writeStructFields buf off fs kvs' := by
  induction fs with
  | nil => intro kvs kvs' buf off _; rfl
  | cons f rest ih =>
    intro kvs kvs' buf off h
    obtain ⟨nm, ty, foff, fsz, fal⟩ := f
    have hh : jsGet kvs nm = jsGet kvs' nm :=
      h (FieldLayout.mk nm ty foff fsz fal) (List.mem_cons_self _ _)
    have hrest : ∀ g ∈ rest, jsGet kvs g.name = jsGet kvs' g.name :=
      fun g hg => h g (List.mem_cons_of_mem _ hg)
    show (match jsGet kvs nm with
      | none => writeStructFields buf off rest kvs
      | some v => do
        let b ← writeField buf (off + foff) ty v
        writeStructFields b off rest kvs) =
      (match jsGet kvs' nm with
      | none => writeStructFields buf off rest kvs'
      | some v => do
        let b ← writeField buf (off + foff) ty v
        writeStructFields b off rest kvs')
    rw [hh]
    cases jsGet kvs' nm with
    | none => exact ih kvs kvs' buf off hrest
    | some v =>
      show (do
        let b ← writeField buf (off + foff) ty v
        writeStructFields b off rest kvs) = (do
        let b ← writeField buf (off + foff) ty v
        writeStructFields b off rest kvs')
      cases hw : writeField buf (off + foff) ty v with
      | error e => rfl
      | ok b =>
        show writeStructFields b off rest kvs = writeStructFields b off rest kvs'
        exact ih kvs kvs' b off hrest

/-! ## Write-then-read identity -/

mutual

theorem writeField_roundtrip : ∀ (t : FieldType) (v : Value), wfType t = true →
    valueFits t v = true → ∀ (buf : Buf) (off : Nat),
    ∃ buf', writeField buf off t v = .ok buf' ∧ decodeField buf' off t = v ∧
      (∀ j, j < off ∨ off + (getTypeInfo t).1 ≤ j → buf' j = buf j)
  | .prim p, v, _, hfit, buf, off => by
    obtain ⟨buf', hw, hr, hf⟩ := writePrim_roundtrip (p := p) (v := v) hfit buf off
    exact ⟨buf', hw, hr, hf⟩
  | .arr p count, v, _, hfit, buf, off => by
    cases v <;> simp only [valueFits] at hfit <;> try exact absurd hfit (by decide)
    rename_i vs
    rw [Bool.and_eq_true, decide_eq_true_eq] at hfit
    obtain ⟨hlen, hall⟩ := hfit
    subst hlen
    obtain ⟨buf', hw, hr, hf⟩ := writeArrayElems_roundtrip vs hall buf off
    refine ⟨buf', ?_, ?_, ?_⟩
    · show writeArrayElems p (getTypeSize p) buf off (min vs.length vs.length) vs = .ok buf'
      rw [Nat.min_self]
      exact hw
    · show Value.arr ((List.range vs.length).map
        (fun i => readPrim buf' (off + i * getTypeSize p) p)) = Value.arr vs
      refine congrArg Value.arr ?_
      refine List.ext_get (by simp) ?_
      intro i h1 h2
      have hi : i < vs.length := by simpa using h2
      have hg : ((List.range vs.length).map
          (fun i => readPrim buf' (off + i * getTypeSize p) p)).get ⟨i, h1⟩ =
          readPrim buf' (off + i * getTypeSize p) p := by
        simp
      rw [hg]
      exact hr i hi
    · intro j hj
      refine hf j ?_
      show j < off ∨ off + vs.length * getTypeSize p ≤ j
      have : getTypeSize p * vs.length = vs.length * getTypeSize p := Nat.mul_comm _ _
      rcases hj with h | h
      · exact Or.inl h
      · refine Or.inr ?_
        have hw2 : (getTypeInfo (.arr p vs.length)).1 = getTypeSize p * vs.length := rfl
        omega
  | .strukt (.mk n fs sz al), v, hwf, hfit, buf, off => by
    cases v <;> simp only [valueFits] at hfit <;> try exact absurd hfit (by decide)
    rename_i kvs
    simp only [wfType, Bool.and_eq_true, decide_eq_true_eq] at hwf
    obtain ⟨⟨hal, hnd⟩, hseq⟩ := hwf
    obtain ⟨buf', hw, hr, hf⟩ :=
      writeStructFields_roundtrip fs kvs hnd 0 sz hseq hfit buf off
    refine ⟨buf', hw, ?_, ?_⟩
    · show Value.obj (decodeFieldList buf' off fs) = Value.obj kvs
      rw [hr]
    · intro j hj
      refine hf j ?_
      rcases hj with h | h
      · exact Or.inl (by omega)
      · exact Or.inr h

theorem writeStructFields_roundtrip : ∀ (fs : List FieldLayout)
    (kvs : List (String × Value)), (fs.map FieldLayout.name).Nodup →
    ∀ (cur size : Nat), wfFieldSeq cur size fs = true → fieldsFit fs kvs = true →
    ∀ (buf : Buf) (off : Nat),
    ∃ buf', writeStructFields buf off fs kvs = .ok buf' ∧
      decodeFieldList buf' off fs = kvs ∧
      (∀ j, j < off + cur ∨ off + size ≤ j → buf' j = buf j)
  | [], kvs, _, cur, size, _, hfit, buf, off => by
    cases kvs with
    | nil => exact ⟨buf, rfl, rfl, fun _ _ => rfl⟩
    | cons kv kvs' => exact absurd hfit (by simp [fieldsFit])
  | .mk nm ty foff fsz fal :: rest, kvs, hnd, cur, size, hseq, hfit, buf, off => by
    cases kvs with
    | nil => exact absurd hfit (by simp [fieldsFit])
    | cons kv kvs' =>
    obtain ⟨k, v⟩ := kv
    simp only [fieldsFit, Bool.and_eq_true, decide_eq_true_eq] at hfit
    obtain ⟨⟨hk, hfitv⟩, hfitrest⟩ := hfit
    simp only [wfFieldSeq, Bool.and_eq_true, decide_eq_true_eq] at hseq
    obtain ⟨⟨⟨hcur, hend⟩, hty⟩, hrest⟩ := hseq
    simp only [List.map_cons, List.nodup_cons, FieldLayout.name] at hnd
    obtain ⟨hnm, hnd'⟩ := hnd
    have hk' : nm = k := hk.symm
    subst hk'
    obtain ⟨buf1, hw1, hr1, hf1⟩ := writeField_roundtrip ty v hty hfitv buf (off + foff)
    obtain ⟨buf2, hw2, hr2, hf2⟩ :=
      writeStructFields_roundtrip rest kvs' hnd' (foff + (getTypeInfo ty).1) size hrest
        hfitrest buf1 off
    refine ⟨buf2, ?_, ?_, ?_⟩
    · show (match jsGet ((nm, v) :: kvs') nm with
        | none => writeStructFields buf off rest ((nm, v) :: kvs')
        | some v0 => do
          let b ← writeField buf (off + foff) ty v0
          writeStructFields b off rest ((nm, v) :: kvs')) = .ok buf2
      rw [jsGet_cons_self]
      show (do
        let b ← writeField buf (off + foff) ty v
        writeStructFields b off rest ((nm, v) :: kvs')) = .ok buf2
      rw [hw1]
      show writeStructFields buf1 off rest ((nm, v) :: kvs') = .ok buf2
      rw [writeStructFields_congr_values rest ((nm, v) :: kvs') kvs' buf1 off ?hnames]
      case hnames =>
        intro g hg
        refine jsGet_cons_ne nm g.name v kvs' ?_
        intro hcontra
        exact hnm (hcontra ▸ List.mem_map_of_mem FieldLayout.name hg)
      exact hw2
    · show (nm, decodeField buf2 (off + foff) ty) :: decodeFieldList buf2 off rest =
        (nm, v) :: kvs'
      have hagree : ∀ j, off + foff ≤ j → j < off + foff + (getTypeInfo ty).1 →
          buf2 j = buf1 j := by
        intro j h1 h2
        exact hf2 j (Or.inl (by omega))
      rw [decodeField_congr ty buf2 buf1 (off + foff) hty hagree, hr1, hr2]
    · intro j hj
      have hb2 : buf2 j = buf1 j := by
        refine hf2 j ?_
        rcases hj with h | h
        · exact Or.inl (by omega)
        · exact Or.inr h
      have hb1 : buf1 j = buf j := by
        refine hf1 j ?_
        rcases hj with h | h
        · exact Or.inl (by omega)
        · exact Or.inr (by omega)
      rw [hb2, hb1]

end

/-! ## Structure of the computed layouts -/

theorem layoutFields_cons (off m : Nat) (f : FieldDef) (rest : List FieldDef) :
    layoutFields off m (f :: rest) =
      (FieldLayout.mk f.name f.type (align off (getTypeInfo f.type).2)
          (getTypeInfo f.type).1 (getTypeInfo f.type).2 ::
        (layoutFields (align off (getTypeInfo f.type).2 + (getTypeInfo f.type).1)
          (max m (getTypeInfo f.type).2) rest).1,
       (layoutFields (align off (getTypeInfo f.type).2 + (getTypeInfo f.type).1)
          (max m (getTypeInfo f.type).2) rest).2.1,
       (layoutFields (align off (getTypeInfo f.type).2 + (getTypeInfo f.type).1)
          (max m (getTypeInfo f.type).2) rest).2.2) := by
  simp only [layoutFields]

theorem layoutFields_final_ge (fs : List FieldDef) :
    ∀ (off m : Nat), off ≤ (layoutFields off m fs).2.1 := by
  induction fs with
  | nil => intro off m; exact le_refl _
  | cons f rest ih =>
    intro off m
    have h1 := le_align off (getTypeInfo f.type).2
    have h2 := ih (align off (getTypeInfo f.type).2 + (getTypeInfo f.type).1)
      (max m (getTypeInfo f.type).2)
    rw [layoutFields_cons]
    dsimp only
    omega

theorem layoutFields_max_ge (fs : List FieldDef) :
    ∀ (off m : Nat), m ≤ (layoutFields off m fs).2.2 := by
  induction fs with
  | nil => intro off m; exact le_refl _
  | cons f rest ih =>
    intro off m
    have h2 := ih (align off (getTypeInfo f.type).2 + (getTypeInfo f.type).1)
      (max m (getTypeInfo f.type).2)
    rw [layoutFields_cons]
    dsimp only
    omega

theorem layoutFields_names (fs : List FieldDef) :
    ∀ (off m : Nat), (layoutFields off m fs).1.map FieldLayout.name =
      fs.map FieldDef.name := by
  induction fs with
  | nil => intro off m; rfl
  | cons f rest ih =>
    intro off m
    rw [layoutFields_cons]
    dsimp only
    simp only [List.map_cons, FieldLayout.name]
    rw [ih]

theorem layoutFields_wfFieldSeq (fs : List FieldDef)
    (h : ∀ fd ∈ fs, wfType fd.type = true) :
    ∀ (off m B : Nat), (layoutFields off m fs).2.1 ≤ B →
      wfFieldSeq off B (layoutFields off m fs).1 = true := by
  induction fs with
  | nil => intro off m B _; rfl
  | cons f rest ih =>
    intro off m B hB
    have hf : wfType f.type = true := h f (List.mem_cons_self _ _)
    have hrest : ∀ fd ∈ rest, wfType fd.type = true :=
      fun fd hfd => h fd (List.mem_cons_of_mem _ hfd)
    have hge := layoutFields_final_ge rest
      (align off (getTypeInfo f.type).2 + (getTypeInfo f.type).1)
      (max m (getTypeInfo f.type).2)
    have hB2 : (layoutFields (align off (getTypeInfo f.type).2 + (getTypeInfo f.type).1)
        (max m (getTypeInfo f.type).2) rest).2.1 ≤ B := by
      rw [layoutFields_cons] at hB
      dsimp only at hB
      exact hB
    have hih := ih hrest (align off (getTypeInfo f.type).2 + (getTypeInfo f.type).1)
      (max m (getTypeInfo f.type).2) B hB2
    have halign := le_align off (getTypeInfo f.type).2
    rw [layoutFields_cons]
    dsimp only
    simp only [wfFieldSeq, Bool.and_eq_true, decide_eq_true_eq]
    refine ⟨⟨⟨halign, ?_⟩, hf⟩, hih⟩
    show align off (getTypeInfo f.type).2 + (getTypeInfo f.type).1 ≤ B
    omega

theorem wfType_defineStruct (n : String) (defs : List FieldDef)
    (h : ∀ fd ∈ defs, wfType fd.type = true)
    (hnd : (defs.map FieldDef.name).Nodup) :
    wfType (.strukt (defineStruct n defs)) = true := by
  have h1 := layoutFields_max_ge defs 0 1
  have h2 := layoutFields_final_ge defs 0 1
  have h3 := le_align (layoutFields 0 1 defs).2.1 (layoutFields 0 1 defs).2.2
  have h4 := layoutFields_wfFieldSeq defs h 0 1
    (align (layoutFields 0 1 defs).2.1 (layoutFields 0 1 defs).2.2) (by omega)
  have h5 := layoutFields_names defs 0 1
  show wfType (.strukt (.mk n (layoutFields 0 1 defs).1
    (align (layoutFields 0 1 defs).2.1 (layoutFields 0 1 defs).2.2)
    (layoutFields 0 1 defs).2.2)) = true
  simp only [wfType, Bool.and_eq_true, decide_eq_true_eq]
  exact ⟨⟨by omega, h5 ▸ hnd⟩, h4⟩

theorem layoutFields_head_ge (fs : List FieldDef) (off m : Nat) (f0 : FieldLayout)
    (h : (layoutFields off m fs).1.head? = some f0) : off ≤ f0.offset := by
  cases fs with
  | nil => simp [layoutFields] at h
  | cons f rest =>
    rw [layoutFields_cons] at h
    dsimp only at h
    simp only [List.head?_cons, Option.some.injEq] at h
    have := le_align off (getTypeInfo f.type).2
    rw [← h]
    exact this

theorem layoutFields_chain (fs : List FieldDef) :
    ∀ (off m : Nat), List.Chain'
      (fun f g => f.offset + f.size ≤ g.offset) (layoutFields off m fs).1 := by
  induction fs with
  | nil => intro off m; exact List.chain'_nil
  | cons f rest ih =>
    intro off m
    rw [layoutFields_cons]
    dsimp only
    rw [List.chain'_cons']
    constructor
    · intro g hg
      have := layoutFields_head_ge rest
        (align off (getTypeInfo f.type).2 + (getTypeInfo f.type).1)
        (max m (getTypeInfo f.type).2) g (Option.mem_def.mp hg)
      exact this
    · exact ih _ _

theorem wfType_pos_align (t : FieldType) (h : wfType t = true) :
    0 < (getTypeInfo t).2 := by
  cases t with
  | prim p => cases p <;> decide
  | strukt s =>
    obtain ⟨n, fs, sz, al⟩ := s
    simp only [wfType, Bool.and_eq_true, decide_eq_true_eq] at h
    exact h.1.1
  | arr p count => cases p <;> simp [getTypeInfo, TYPE_INFO]

theorem layoutFields_fields_spec (fs : List FieldDef) :
    ∀ (off m : Nat), ∀ f ∈ (layoutFields off m fs).1,
      ∃ fd ∈ fs, f.type = fd.type ∧ f.size = (getTypeInfo fd.type).1 ∧
        f.alignment = (getTypeInfo fd.type).2 ∧
        ∃ c, f.offset = align c (getTypeInfo fd.type).2 := by
  induction fs with
  | nil => intro off m f hf; simp [layoutFields] at hf
  | cons fd rest ih =>
    intro off m f hf
    rw [layoutFields_cons] at hf
    dsimp only at hf
    simp only [List.mem_cons] at hf
    rcases hf with hf | hf
    · subst hf
      exact ⟨fd, List.mem_cons_self _ _, rfl, rfl, rfl, off, rfl⟩
    · obtain ⟨fd', hmem, hrest⟩ := ih _ _ f hf
      exact ⟨fd', List.mem_cons_of_mem _ hmem, hrest⟩

/-! ## The source walk agrees with the spec's walk -/

theorem specTypeInfo_eq (p : PrimType) : specTypeInfo p = TYPE_INFO p := by
  cases p <;> rfl

theorem specFieldInfo_eq (t : FieldType) : specFieldInfo t = getTypeInfo t := by
  cases t with
  | prim p => simp [specFieldInfo, getTypeInfo, specTypeInfo_eq]
  | strukt s => rfl
  | arr p c => simp [specFieldInfo, getTypeInfo, specTypeInfo_eq]

theorem specAlign_eq (o a : Nat) : specAlign o a = align o a := rfl

theorem specGo_eq (fs : List FieldDef) : ∀ (off m : Nat) (acc : List FieldLayout),
    specComputeLayoutGo fs off m acc =
      (acc ++ (layoutFields off m fs).1, (layoutFields off m fs).2.1,
        (layoutFields off m fs).2.2) := by
  induction fs with
  | nil => intro off m acc; simp [specComputeLayoutGo, layoutFields]
  | cons f rest ih =>
    intro off m acc
    show specComputeLayoutGo rest
        (specAlign off (specFieldInfo f.type).2 + (specFieldInfo f.type).1)
        (max m (specFieldInfo f.type).2)
        (acc ++ [.mk f.name f.type (specAlign off (specFieldInfo f.type).2)
          (specFieldInfo f.type).1 (specFieldInfo f.type).2]) = _
    rw [ih, specFieldInfo_eq, specAlign_eq, layoutFields_cons]
    dsimp only
    simp [List.append_assoc]

theorem defineStruct_eq_specComputeLayout (name : String) (fields : List FieldDef) :
    defineStruct name fields = specComputeLayout name fields := by
  unfold defineStruct specComputeLayout
  rw [specGo_eq fields 0 1 []]
  rcases layoutFields 0 1 fields with ⟨lfs, fo, fm⟩
  dsimp only
  rw [specAlign_eq]
  simp

/-! ## Claim theorems -/

/-- C1: `defineStruct` walks the fields in declaration order with a running
offset starting at 0 and a running max-alignment starting at 1, rounding the
offset up to each field's alignment before recording it and rounding the
final offset up to the max alignment for the total size (it coincides with
the spec's walk `specComputeLayout` on every field list); in particular, for
the 3-field struct {u32 a, u64 b, u32 c} it computes offsets a=0, b=8, c=16
and total size 24 with overall alignment 8. -/
theorem defineStruct_walks_fields_in_order :
    (∀ (name : String) (fields : List FieldDef),
      defineStruct name fields = specComputeLayout name fields) ∧
    (defineStruct "S" [⟨"a", .prim .u32⟩, ⟨"b", .prim .u64⟩,
        ⟨"c", .prim .u32⟩]).fields.map (fun f => (f.name, f.offset)) =
      [("a", 0), ("b", 8), ("c", 16)] ∧
    (defineStruct "S" [⟨"a", .prim .u32⟩, ⟨"b", .prim .u64⟩,
        ⟨"c", .prim .u32⟩]).size = 24 ∧
    (defineStruct "S" [⟨"a", .prim .u32⟩, ⟨"b", .prim .u64⟩,
        ⟨"c", .prim .u32⟩]).alignment = 8 :=
  ⟨defineStruct_eq_specComputeLayout, rfl, rfl, rfl⟩

/-- C2: every layout `defineStruct` computes (from well-formed field types,
which is what every nested layout produced by `defineStruct` itself is)
satisfies: each field's offset is a multiple of that field's alignment, the
total size is a multiple of the overall alignment, and adjacent fields do not
overlap (`fields[i].offset + fields[i].size ≤ fields[i+1].offset`). -/
theorem defineStruct_invariants (name : String) (defs : List FieldDef)
    (h : ∀ fd ∈ defs, wfType fd.type = true) :
    (∀ f ∈ (defineStruct name defs).fields, f.offset % f.alignment = 0) ∧
    (defineStruct name defs).size % (defineStruct name defs).alignment = 0 ∧
    List.Chain' (fun f g => f.offset + f.size ≤ g.offset)
      (defineStruct name defs).fields := by
  have hfields : (defineStruct name defs).fields = (layoutFields 0 1 defs).1 := by
    unfold defineStruct
    rcases layoutFields 0 1 defs with ⟨a, b, c⟩
    rfl
  have hsize : (defineStruct name defs).size =
      align (layoutFields 0 1 defs).2.1 (layoutFields 0 1 defs).2.2 := by
    unfold defineStruct
    rcases layoutFields 0 1 defs with ⟨a, b, c⟩
    rfl
  have halign : (defineStruct name defs).alignment = (layoutFields 0 1 defs).2.2 := by
    unfold defineStruct
    rcases layoutFields 0 1 defs with ⟨a, b, c⟩
    rfl
  refine ⟨?_, ?_, ?_⟩
  · intro f hf
    rw [hfields] at hf
    obtain ⟨fd, hmem, _, _, hal, c, hoff⟩ := layoutFields_fields_spec defs 0 1 f hf
    rw [hoff, hal]
    exact align_mod c (wfType_pos_align fd.type (h fd hmem))
  · rw [hsize, halign]
    refine align_mod _ ?_
    have := layoutFields_max_ge defs 0 1
    omega
  · rw [hfields]
    exact layoutFields_chain defs 0 1

/-- Witness for C2 at the concrete 3-field struct {u32 a, u64 b, u32 c}. -/
theorem defineStruct_invariants_witness :
    (∀ f ∈ (defineStruct "S" [⟨"a", .prim .u32⟩, ⟨"b", .prim .u64⟩,
      ⟨"c", .prim .u32⟩]).fields, f.offset % f.alignment = 0) ∧
    (defineStruct "S" [⟨"a", .prim .u32⟩, ⟨"b", .prim .u64⟩,
      ⟨"c", .prim .u32⟩]).size % (defineStruct "S" [⟨"a", .prim .u32⟩,
      ⟨"b", .prim .u64⟩, ⟨"c", .prim .u32⟩]).alignment = 0 ∧
    List.Chain' (fun f g => f.offset + f.size ≤ g.offset)
      (defineStruct "S" [⟨"a", .prim .u32⟩, ⟨"b", .prim .u64⟩,
        ⟨"c", .prim .u32⟩]).fields :=
  defineStruct_invariants "S" _ (by decide)

/-- C3: for every well-formed StructLayout (the shape every layout computed
by `defineStruct` has, see `wfType_defineStruct`) and every value map
covering all of its fields with values of the declared types, decoding the
buffer produced by `StructEncoder.encode` with the `StructDecoder` read
function matching each field's primitive kind at that field's offset returns
exactly the values that were encoded, including nested struct fields and
fixed-size array fields. -/
theorem encode_decode_roundtrip (L : StructLayout) (values : List (String × Value))
    (hwf : wfType (.strukt L) = true)
    (hfit : valueFits (.strukt L) (.obj values) = true) :
    ∃ buf, StructEncoder.encode L values = .ok buf ∧
      decodeFieldList buf 0 L.fields = values := by
  obtain ⟨n, fs, sz, al⟩ := L
  obtain ⟨buf, hw, hr, _⟩ :=
    writeField_roundtrip (.strukt (.mk n fs sz al)) (.obj values) hwf hfit zeroBuf 0
  refine ⟨buf, hw, ?_⟩
  have : Value.obj (decodeFieldList buf 0 fs) = Value.obj values := hr
  exact Value.obj.inj this

/-- Witness for C3: a layout with a u8 field, a nested struct field
(u16 + bool) and a fixed u8[3] array field, plus an f32 field. -/
theorem encode_decode_roundtrip_witness :
    wfType (.strukt (defineStruct "O" [⟨"p", .prim .u8⟩,
      ⟨"q", .strukt (defineStruct "I" [⟨"x", .prim .u16⟩, ⟨"y", .prim .bool⟩])⟩,
      ⟨"r", .arr .u8 3⟩, ⟨"s", .prim .f32⟩])) = true ∧
    valueFits (.strukt (defineStruct "O" [⟨"p", .prim .u8⟩,
      ⟨"q", .strukt (defineStruct "I" [⟨"x", .prim .u16⟩, ⟨"y", .prim .bool⟩])⟩,
      ⟨"r", .arr .u8 3⟩, ⟨"s", .prim .f32⟩]))
      (.obj [("p", .num 5),
        ("q", .obj [("x", .num 999), ("y", .bool true)]),
        ("r", .arr [.num 1, .num 2, .num 3]), ("s", .f32bits 1078530011)]) = true ∧
    (∃ buf, StructEncoder.encode (defineStruct "O" [⟨"p", .prim .u8⟩,
      ⟨"q", .strukt (defineStruct "I" [⟨"x", .prim .u16⟩, ⟨"y", .prim .bool⟩])⟩,
      ⟨"r", .arr .u8 3⟩, ⟨"s", .prim .f32⟩])
        [("p", .num 5), ("q", .obj [("x", .num 999), ("y", .bool true)]),
         ("r", .arr [.num 1, .num 2, .num 3]), ("s", .f32bits 1078530011)] = .ok buf ∧
      decodeFieldList buf 0 (defineStruct "O" [⟨"p", .prim .u8⟩,
        ⟨"q", .strukt (defineStruct "I" [⟨"x", .prim .u16⟩, ⟨"y", .prim .bool⟩])⟩,
        ⟨"r", .arr .u8 3⟩, ⟨"s", .prim .f32⟩]).fields =
        [("p", .num 5), ("q", .obj [("x", .num 999), ("y", .bool true)]),
         ("r", .arr [.num 1, .num 2, .num 3]), ("s", .f32bits 1078530011)]) :=
  ⟨rfl, rfl, encode_decode_roundtrip _ _ rfl rfl⟩

/-- The pending-map keys after a trampoline invocation: the token is removed
(atomically with resolving/rejecting) when present, and nothing changes when
absent. -/
theorem fireAdapterCallback_pending (st : RegState) (mem : Nat → Nat)
    (status adapter msgData msgLen tok : Nat) :
    ((fireAdapterCallback st mem status adapter msgData msgLen tok).1).pending =
      if tok ∈ st.pending then st.pending.filter (fun t => t ≠ tok)
      else st.pending := by
  unfold fireAdapterCallback
  by_cases h : tok ∈ st.pending
  · rw [if_pos h, if_pos h]
    split <;> rfl
  · rw [if_neg h, if_neg h]

/-- C4 counterexample: firing the adapter trampoline with failure status 2
and a 4-byte message pointing at the bytes "boom" rejects with the message
"Failed to request adapter (status 2): boom" — not with a message that is
exactly "boom". -/
theorem adapterCallback_boom_counterexample :
    (fireAdapterCallback ⟨[1], 2⟩
      (fun i => if i = 500 then 98 else if i = 501 then 111 else
        if i = 502 then 111 else if i = 503 then 109 else 0)
      2 0 500 4 1).2 =
      some (.reject "Failed to request adapter (status 2): boom") ∧
    (fireAdapterCallback ⟨[1], 2⟩
      (fun i => if i = 500 then 98 else if i = 501 then 111 else
        if i = 502 then 111 else if i = 503 then 109 else 0)
      2 0 500 4 1).2 ≠
      some (.reject "boom") :=
  ⟨rfl, by decide⟩

/-- C4 (amended): firing an async operation's trampoline with a non-success
status and an (address, length) message pointing at the bytes "boom" rejects
the future with an error whose message is
"Failed to request adapter (status s): boom" — the decoded text "boom"
embedded in the operation's diagnostic message, not the bare text. -/
theorem adapterCallback_failure_message (st : RegState) (mem : Nat → Nat)
    (status adapter msgData tok : Nat)
    (hpend : tok ∈ st.pending) (hfail : status ≠ WGPURequestAdapterStatus_Success)
    (hptr : msgData ≠ 0)
    (h0 : mem msgData = 98) (h1 : mem (msgData + 1) = 111)
    (h2 : mem (msgData + 2) = 111) (h3 : mem (msgData + 3) = 109) :
    (fireAdapterCallback st mem status adapter msgData 4 tok).2 =
      some (.reject ("Failed to request adapter (status " ++ toString status ++
        "): boom")) := by
  have hmsg : readStringMem mem msgData 4 = "boom" := by
    unfold readStringMem
    rw [if_neg (by push_neg; exact ⟨hptr, by omega⟩)]
    rw [show List.range 4 = [0, 1, 2, 3] from rfl]
    simp only [List.map_cons, List.map_nil]
    rw [show msgData + 0 = msgData from rfl, h0, h1, h2, h3]
  unfold fireAdapterCallback
  rw [if_pos hpend, if_neg hfail]
  rw [if_pos (by omega : (0 : Nat) < 4), hmsg]
  show (_, some (AdapterOutcome.reject (("Failed to request adapter (status " ++
    toString status ++ "): ") ++ "boom"))).2 = _
  rw [String.append_assoc]
  rfl

/-- Witness for C4's amended theorem at a concrete pending state, memory and
status. -/
theorem adapterCallback_failure_message_witness :
    (1 ∈ (RegState.mk [1] 2).pending) ∧ (2 ≠ WGPURequestAdapterStatus_Success) ∧
    (500 ≠ 0) ∧
    (fireAdapterCallback ⟨[1], 2⟩
      (fun i => if i = 500 then 98 else if i = 501 then 111 else
        if i = 502 then 111 else if i = 503 then 109 else 0)
      2 0 500 4 1).2 =
      some (.reject ("Failed to request adapter (status " ++ toString 2 ++
        "): boom")) :=
  ⟨by decide, by decide, by decide,
    adapterCallback_failure_message ⟨[1], 2⟩ _ 2 0 500 1
      (by decide) (by decide) (by decide) rfl rfl rfl rfl⟩

/-- C5 counterexample: encoding a u32 field from the string "abc" (a runtime
type that does not match the declared number type) does not raise: encode
returns successfully and the slot holds the silent coercion 0. -/
theorem encode_mismatch_counterexample :
    (match StructEncoder.encode (defineStruct "T" [⟨"x", .prim .u32⟩])
        [("x", Value.str "abc")] with
     | .ok buf => some (readPrim buf 0 .u32)
     | .error _ => none) = some (.num 0) := rfl

/-- C5 (amended): `StructEncoder.writePrimitive` raises at encode time only
when the conversion the `DataView` setter performs throws: a BigInt value
for a number-typed field (`u8..i32`, `bool`, `f32`, `f64`), or a value that
`BigInt()` cannot convert (e.g. a non-numeric string, or null except for
`ptr` where `value ?? 0` applies) for a 64-bit field; every other mismatched
value is coerced via `ToNumber` and written without an error. -/
theorem writePrim_mismatch_behavior :
    (∀ (buf : Buf) (off : Nat) (p : PrimType) (v : Value),
      p ∈ [PrimType.u8, .i8, .u16, .i16, .u32, .i32, .bool, .f32, .f64] →
      (∀ n, v ≠ .bigv n) → ∃ buf', writePrim buf off p v = .ok buf') ∧
    (∀ (buf : Buf) (off : Nat) (p : PrimType) (n : Int),
      p ∈ [PrimType.u8, .i8, .u16, .i16, .u32, .i32, .bool, .f32, .f64] →
      ∃ e, writePrim buf off p (.bigv n) = .error e) ∧
    (∀ (buf : Buf) (off : Nat) (p : PrimType), p ∈ [PrimType.u64, .i64, .usize] →
      (∃ e, writePrim buf off p (.str "abc") = .error e) ∧
      (∃ e, writePrim buf off p Value.nullv = .error e)) ∧
    (∃ e, writePrim zeroBuf 0 .ptr (.str "abc") = .error e) ∧
    (∀ (buf : Buf) (off : Nat), ∃ buf', writePrim buf off .ptr Value.nullv = .ok buf') := by
  refine ⟨?_, ?_, ?_, ⟨_, rfl⟩, fun buf off => ⟨_, rfl⟩⟩
  · intro buf off p v hp hv
    simp only [List.mem_cons, List.mem_nil_iff, or_false] at hp
    rcases hp with rfl | rfl | rfl | rfl | rfl | rfl | rfl | rfl | rfl <;>
      cases v <;> first
      | exact absurd rfl (hv _)
      | exact ⟨_, rfl⟩
  · intro buf off p n hp
    simp only [List.mem_cons, List.mem_nil_iff, or_false] at hp
    rcases hp with rfl | rfl | rfl | rfl | rfl | rfl | rfl | rfl | rfl <;>
      exact ⟨_, rfl⟩
  · intro buf off p hp
    simp only [List.mem_cons, List.mem_nil_iff, or_false] at hp
    rcases hp with rfl | rfl | rfl <;> exact ⟨⟨_, rfl⟩, ⟨_, rfl⟩⟩

/-- Witness for C5's amended theorem: u32 with a string coerces without
error, u32 with a BigInt throws, u64 with the string "abc" throws. -/
theorem writePrim_mismatch_behavior_witness :
    (PrimType.u32 ∈ [PrimType.u8, .i8, .u16, .i16, .u32, .i32, .bool, .f32, .f64]) ∧
    (∀ n, Value.str "abc" ≠ Value.bigv n) ∧
    (∃ buf', writePrim zeroBuf 0 .u32 (.str "abc") = .ok buf') ∧
    (∃ e, writePrim zeroBuf 0 .u32 (.bigv 7) = .error e) ∧
    (∃ e, writePrim zeroBuf 0 .u64 (.str "abc") = .error e) :=
  ⟨by decide, fun n h => Value.noConfusion h,
    writePrim_mismatch_behavior.1 zeroBuf 0 .u32 (.str "abc") (by decide)
      (fun n h => Value.noConfusion h),
    writePrim_mismatch_behavior.2.1 zeroBuf 0 .u32 7 (by decide),
    (writePrim_mismatch_behavior.2.2.1 zeroBuf 0 .u64 (by decide)).1⟩

/-- C6: a pending token's resolver/rejecter is invoked at most once: an
invocation with a token not in the pending map is a no-op, the token is
removed from the map atomically with resolving/rejecting, and a second
invocation of the same trampoline produces no outcome and leaves the state
unchanged. -/
theorem adapterCallback_at_most_once (st : RegState) (mem mem2 : Nat → Nat)
    (status adapter msgData msgLen status2 adapter2 msgData2 msgLen2 tok : Nat) :
    (tok ∉ st.pending →
      fireAdapterCallback st mem status adapter msgData msgLen tok = (st, none)) ∧
    tok ∉ ((fireAdapterCallback st mem status adapter msgData msgLen tok).1).pending ∧
    fireAdapterCallback (fireAdapterCallback st mem status adapter msgData msgLen tok).1
        mem2 status2 adapter2 msgData2 msgLen2 tok =
      ((fireAdapterCallback st mem status adapter msgData msgLen tok).1, none) := by
  have habsent : ∀ (st' : RegState) (m : Nat → Nat) (s a d l : Nat),
      tok ∉ st'.pending →
      fireAdapterCallback st' m s a d l tok = (st', none) := by
    intro st' m s a d l h
    unfold fireAdapterCallback
    rw [if_neg h]
  have hout : tok ∉ ((fireAdapterCallback st mem status adapter msgData msgLen
      tok).1).pending := by
    rw [fireAdapterCallback_pending]
    by_cases h : tok ∈ st.pending
    · rw [if_pos h]
      intro hmem
      have := List.of_mem_filter hmem
      simp at this
    · rw [if_neg h]
      exact h
  exact ⟨habsent st mem status adapter msgData msgLen, hout,
    habsent _ mem2 status2 adapter2 msgData2 msgLen2 hout⟩

/-- Witness for C6 at a concrete state and double invocation. -/
theorem adapterCallback_at_most_once_witness :
    (3 ∉ (RegState.mk [1] 5).pending →
      fireAdapterCallback ⟨[1], 5⟩ zeroBuf 1 7 0 0 3 = (⟨[1], 5⟩, none)) ∧
    1 ∉ ((fireAdapterCallback ⟨[1], 5⟩ zeroBuf 1 7 0 0 1).1).pending ∧
    fireAdapterCallback (fireAdapterCallback ⟨[1], 5⟩ zeroBuf 1 7 0 0 1).1
        zeroBuf 1 7 0 0 1 =
      ((fireAdapterCallback ⟨[1], 5⟩ zeroBuf 1 7 0 0 1).1, none) :=
  ⟨(adapterCallback_at_most_once ⟨[1], 5⟩ zeroBuf zeroBuf 1 7 0 0 1 7 0 0 3).1,
    (adapterCallback_at_most_once ⟨[1], 5⟩ zeroBuf zeroBuf 1 7 0 0 1 7 0 0 1).2.1,
    (adapterCallback_at_most_once ⟨[1], 5⟩ zeroBuf zeroBuf 1 7 0 0 1 7 0 0 1).2.2⟩

theorem pollLoop_le (resolved : Nat → Bool) :
    ∀ (fuel i : Nat), pollLoop resolved i fuel ≤ i + fuel := by
  intro fuel
  induction fuel with
  | zero => intro i; simp [pollLoop]
  | succ fuel ih =>
    intro i
    show (if resolved i then i else pollLoop resolved (i + 1) fuel) ≤ i + (fuel + 1)
    split
    · omega
    · have := ih (i + 1)
      omega

theorem pollLoop_never (fuel : Nat) : ∀ (i : Nat),
    pollLoop (fun _ => false) i fuel = i + fuel := by
  induction fuel with
  | zero => intro i; simp [pollLoop]
  | succ fuel ih =>
    intro i
    show (if false then i else pollLoop (fun _ => false) (i + 1) fuel) = i + (fuel + 1)
    rw [if_neg (by simp)]
    rw [ih (i + 1)]
    omega

/-- C7: `pollUntilComplete` terminates on a promise that never settles: its
loop runs at most `maxIterations` iterations (and exactly that many for a
never-firing trampoline, default 10000), after which it throws the timeout
error instead of looping forever. -/
theorem pollUntilComplete_timeout :
    (∀ (resolved : Nat → Bool) (maxIterations : Nat),
      pollIterations resolved maxIterations ≤ maxIterations) ∧
    (∀ (maxIterations : Nat),
      pollIterations (fun _ => false) maxIterations = maxIterations) ∧
    (∀ (maxIterations : Nat) (outcome : Except String Nat),
      pollUntilComplete (fun _ => false) outcome maxIterations =
        .error ("Polling timed out after " ++ toString maxIterations ++
          " iterations")) ∧
    defaultMaxIterations = 10000 := by
  have hiters : ∀ maxIterations : Nat,
      pollIterations (fun _ => false) maxIterations = maxIterations := by
    intro maxIterations
    unfold pollIterations
    rw [pollLoop_never]
    omega
  refine ⟨?_, hiters, ?_, rfl⟩
  · intro resolved maxIterations
    have := pollLoop_le resolved maxIterations 0
    unfold pollIterations
    omega
  · intro maxIterations outcome
    unfold pollUntilComplete
    rw [hiters]
    rfl

/-- C8: `CallbackRegistry.cleanup` rejects every still-pending operation with
the shutdown error "Callback registry cleaned up" and leaves the pending map
empty; in particular, with two operations pending both are rejected and the
pending count afterwards is 0. -/
theorem cleanup_rejects_all_and_clears :
    (∀ st : RegState, (CallbackRegistry.cleanup st).1.pending = [] ∧
      (CallbackRegistry.cleanup st).2 =
        st.pending.map (fun t => (t, "Callback registry cleaned up"))) ∧
    CallbackRegistry.cleanup ⟨[5, 9], 10⟩ =
      (⟨[], 10⟩, [(5, "Callback registry cleaned up"),
        (9, "Callback registry cleaned up")]) ∧
    CallbackRegistry.pendingCount (CallbackRegistry.cleanup ⟨[5, 9], 10⟩).1 = 0 :=
  ⟨fun st => ⟨rfl, rfl⟩, rfl, rfl⟩

/-- C9: the pointer-producing encoder helpers return the null pointer for
empty input without recording any allocation: `encodeString ""` returns
data = 0 and length = 0, and `ptrArray []` and `u32Array []` return
pointer 0, all leaving the allocation list unchanged. -/
theorem empty_inputs_yield_null_pointer :
    ∀ (ptrOf : List Nat → Nat) (st : EncState),
      StructEncoder.encodeString ptrOf st "" = (st, 0, 0) ∧
      StructEncoder.ptrArray ptrOf st [] = (st, 0) ∧
      StructEncoder.u32Array ptrOf st [] = (st, 0) :=
  fun ptrOf st => ⟨rfl, rfl, rfl⟩

/-- C10: `getFieldOffset` returns the computed offset of the field with the
requested name when one exists in the layout, and throws an error naming the
missing field and the struct when none does. -/
theorem getFieldOffset_spec (layout : StructLayout) (fieldName : String) :
    ((∃ f ∈ layout.fields, f.name = fieldName) →
      ∃ f ∈ layout.fields, f.name = fieldName ∧
        getFieldOffset layout fieldName = .ok f.offset) ∧
    ((∀ f ∈ layout.fields, f.name ≠ fieldName) →
      getFieldOffset layout fieldName =
        .error ("Field '" ++ fieldName ++ "' not found in struct '" ++
          layout.name ++ "'")) := by
  constructor
  · intro hex
    cases hfind : layout.fields.find? (fun g => g.name = fieldName) with
    | none =>
      obtain ⟨f, hmem, hname⟩ := hex
      have := List.find?_eq_none.mp hfind f hmem
      simp [hname] at this
    | some f =>
      have hmem := List.mem_of_find?_eq_some hfind
      have hname := List.find?_some hfind
      simp only [decide_eq_true_eq] at hname
      refine ⟨f, hmem, hname, ?_⟩
      unfold getFieldOffset
      rw [hfind]
  · intro hnone
    have hfind : layout.fields.find? (fun g => g.name = fieldName) = none := by
      rw [List.find?_eq_none]
      intro f hmem
      simp [hnone f hmem]
    unfold getFieldOffset
    rw [hfind]

/-- Witness for C10: in the 3-field struct, "b" resolves to offset 8 and a
missing name produces the formatted error. -/
theorem getFieldOffset_spec_witness :
    (∃ f ∈ (defineStruct "S" [⟨"a", .prim .u32⟩, ⟨"b", .prim .u64⟩,
      ⟨"c", .prim .u32⟩]).fields, f.name = "b" ∧
      getFieldOffset (defineStruct "S" [⟨"a", .prim .u32⟩, ⟨"b", .prim .u64⟩,
        ⟨"c", .prim .u32⟩]) "b" = .ok f.offset) ∧
    getFieldOffset (defineStruct "S" [⟨"a", .prim .u32⟩, ⟨"b", .prim .u64⟩,
      ⟨"c", .prim .u32⟩]) "zz" =
      .error "Field 'zz' not found in struct 'S'" :=
  ⟨(getFieldOffset_spec (defineStruct "S" [⟨"a", .prim .u32⟩, ⟨"b", .prim .u64⟩,
      ⟨"c", .prim .u32⟩]) "b").1 (by decide),
    (getFieldOffset_spec (defineStruct "S" [⟨"a", .prim .u32⟩, ⟨"b", .prim .u64⟩,
      ⟨"c", .prim .u32⟩]) "zz").2 (by decide)⟩

end WgpuPolyfill
